import Mathlib

/-!
Verification development for the incremental snapshot export engine of
`cmds-send.c` (btrfs send).

The C code is shallowly embedded:
* the subvolume/uuid registry (`subvol_uuid_search`) is modelled as a list of
  `SubvolInfo` records queried by root id, by uuid, or by path;
* `u64` values are natural numbers; the one place where 64-bit signed
  arithmetic matters (`find_good_parent`'s transaction-id distance) is
  embedded with explicit `% 2^64` two's-complement behaviour;
* fallible calls return `Except ℤ α`, with the C negative-errno convention
  (`-ENOENT = -2`, `-EIO = -5`, `-ENOMEM = -12`, `-EINVAL = -22`);
* system-call outcomes (`read`, `write`, `realpath`, `ioctl`, allocation)
  are environment inputs supplied as explicit oracle parameters.
-/

namespace BtrfsSend

/-- One record of the subvolume registry, as returned by `subvol_uuid_search`
(struct subvol_info): root id, own uuid, the uuid of the snapshot it was
created from (`parent_uuid`, 0 meaning none matches no record), the creation
transaction id (`ctransid`) and the path it is reachable under. -/
structure SubvolInfo where
  root_id : ℕ
  uuid : ℕ
  parent_uuid : ℕ
  ctransid : ℕ
  path : ℕ
deriving DecidableEq, Repr, Inhabited

/-- The registry backing `subvol_uuid_search`. -/
abbrev Registry := List SubvolInfo

/-- `subvol_uuid_search(..., subvol_search_by_root_id)`. -/
def searchByRootId (reg : Registry) (r : ℕ) : Option SubvolInfo :=
  reg.find? (fun si => si.root_id == r)

/-- `subvol_uuid_search(..., subvol_search_by_uuid)`. -/
def searchByUuid (reg : Registry) (u : ℕ) : Option SubvolInfo :=
  reg.find? (fun si => si.uuid == u)

/-- `subvol_uuid_search(..., subvol_search_by_path)`. -/
def searchByPath (reg : Registry) (p : ℕ) : Option SubvolInfo :=
  reg.find? (fun si => si.path == p)

/-- `get_root_id` (lines 61-73): resolve a path to a root id via the
registry; `-ENOENT` when the path resolves to no subvolume. -/
def get_root_id (reg : Registry) (p : ℕ) : Except ℤ ℕ :=
  match searchByPath reg p with
  | none => .error (-2)
  | some si => .ok si.root_id

/-- `get_parent` (lines 75-90): look the subvolume up by root id, then look
up the record whose `uuid` equals its `parent_uuid`. -/
def get_parent (reg : Registry) (rootId : ℕ) : Option SubvolInfo :=
  match searchByRootId reg rootId with
  | none => none
  | some si => searchByUuid reg si.parent_uuid

/-- 2^64, the modulus of `u64` arithmetic. -/
def U64MOD : ℕ := 2 ^ 64

/-- 2^63, the magnitude of the sign bit of `__s64`. -/
def S64BOUND : ℕ := 2 ^ 63

/-- The distance `find_good_parent` computes at lines 136-138:
`__s64 tmp = parent2->ctransid - parent->ctransid; if (tmp < 0) tmp *= -1;`.
The `u64` subtraction wraps modulo 2^64, the result is reinterpreted as a
two's-complement `__s64` and negated when negative (at `-2^63` the negation
wraps back to `-2^63`, which the subsequent unsigned comparison against
`best_diff` reads as `2^63`).  As a natural number the computed value is
`d` when `d < 2^63` and `2^64 - d` otherwise, for `d = (a - b) mod 2^64`. -/
def ctransidDiff (a b : ℕ) : ℕ :=
  if (a + U64MOD - b % U64MOD) % U64MOD < S64BOUND then
    (a + U64MOD - b % U64MOD) % U64MOD
  else U64MOD - (a + U64MOD - b % U64MOD) % U64MOD

/-- The scan loop of `find_good_parent` (lines 116-152), carrying
`best_parent` and `best_diff` exactly as the C loop does: skip clone sources
with no resolvable ancestor or whose ancestor differs from the target's;
re-resolve the qualifying clone source by root id (`-ENOENT` if that lookup
fails); keep it when its distance is strictly below the best so far. -/
def fgpLoop (reg : Registry) (parent : SubvolInfo) :
    List ℕ → Option SubvolInfo → ℕ → Except ℤ (Option SubvolInfo × ℕ)
  | [], best, bestDiff => .ok (best, bestDiff)
  | c :: rest, best, bestDiff =>
    match get_parent reg c with
    | none => fgpLoop reg parent rest best bestDiff
    | some p2 =>
      if p2.root_id ≠ parent.root_id then
        fgpLoop reg parent rest best bestDiff
      else
        match searchByRootId reg c with
        | none => .error (-2)
        | some p2' =>
          let tmp := ctransidDiff p2'.ctransid parent.ctransid
          if tmp < bestDiff then fgpLoop reg parent rest (some p2') tmp
          else fgpLoop reg parent rest best bestDiff

/-- `find_good_parent` (lines 92-173): resolve the target's recorded
ancestor (`-ENOENT` if it does not exist); if the ancestor's root id occurs
among the clone sources return it immediately (lines 108-114); otherwise run
the similarity scan with `best_diff` initialised to `(u64)-1 = 2^64 - 1`;
`-ENOENT` when no clone source qualifies. -/
def find_good_parent (reg : Registry) (cloneSources : List ℕ) (rootId : ℕ) :
    Except ℤ ℕ :=
  match get_parent reg rootId with
  | none => .error (-2)
  | some parent =>
    if cloneSources.any (fun c => c == parent.root_id) then
      .ok parent.root_id
    else
      match fgpLoop reg parent cloneSources none (U64MOD - 1) with
      | .error e => .error e
      | .ok (none, _) => .error (-2)
      | .ok (some best, _) => .ok best.root_id

/-- `add_clone_source` (lines 175-190): unconditionally grow the array and
append the root id; the only failure is allocation failure (`-ENOMEM`),
modelled by the `allocOk` environment flag. -/
def add_clone_source (allocOk : Bool) (cloneSources : List ℕ) (rootId : ℕ) :
    Except ℤ (List ℕ) :=
  if allocOk then .ok (cloneSources ++ [rootId]) else .error (-12)

/-- `BTRFS_SUBVOL_RDONLY` (bit 1 of the subvolume flags word, value 2),
taken from the repository's ioctl header (not under src). -/
def BTRFS_SUBVOL_RDONLY : ℕ := 2

/-- `is_subvol_ro` (lines 377-408): open the subvolume and fetch its flags
with `BTRFS_IOC_SUBVOL_GETFLAGS`; propagate the open or ioctl error,
otherwise report whether the read-only bit is set.  The open and ioctl
outcomes and the flags word are environment inputs. -/
def is_subvol_ro (openRes : Except ℤ Unit) (ioctlRes : Except ℤ Unit)
    (flags : ℕ) : Except ℤ Bool :=
  match openRes with
  | .error e => .error e
  | .ok _ =>
    match ioctlRes with
    | .error e => .error e
    | .ok _ => .ok (flags &&& BTRFS_SUBVOL_RDONLY ≠ 0)

/-! ### Specification-side selectors for the parent search

These definitions follow the wording of the specification (for the
refinement comparison in claim C1), not the C control flow. -/

/-- A clone source qualifies for the similarity scan when its own recorded
ancestor exists and has the same root id as the target's ancestor. -/
def qualifies (reg : Registry) (parent : SubvolInfo) (c : ℕ) : Bool :=
  match get_parent reg c with
  | some p2 => p2.root_id == parent.root_id
  | none => false

/-- The creation transaction id recorded for a clone source (0 when the
registry has no record; the scan only evaluates this on clone sources the
registry resolves). -/
def srcCtransid (reg : Registry) (c : ℕ) : ℕ :=
  match searchByRootId reg c with
  | some si => si.ctransid
  | none => 0

/-- The code's distance between a clone source's transaction id and the
target's ancestor's transaction id. -/
def srcDiff (reg : Registry) (parent : SubvolInfo) (c : ℕ) : ℕ :=
  ctransidDiff (srcCtransid reg c) parent.ctransid

/-- The true absolute difference of two natural numbers, as the words
"smallest absolute difference" of the specification denote. -/
def absDiff (a b : ℕ) : ℕ := max a b - min a b

/-- The spec's distance between a clone source's transaction id and the
target's ancestor's transaction id. -/
def srcAbsDiff (reg : Registry) (parent : SubvolInfo) (c : ℕ) : ℕ :=
  absDiff (srcCtransid reg c) parent.ctransid

/-- First element of a list minimising `f`, ties broken in favour of the
earlier element. -/
def firstMin (f : ℕ → ℕ) : List ℕ → Option ℕ
  | [] => none
  | c :: rest =>
    match firstMin f rest with
    | none => some c
    | some b => if f c ≤ f b then some c else some b

/-- The parent search exactly as claim C1 words it: resolve the ancestor,
short-circuit on an exact match, otherwise keep the qualifying clone sources
and return the one whose transaction id has the smallest **absolute**
difference from the ancestor's, earliest first on ties; `-ENOENT` when none
qualifies.  (Follows the spec's words, for comparison with
`find_good_parent`.) -/
def claimC1Select (reg : Registry) (cloneSources : List ℕ) (rootId : ℕ) :
    Except ℤ ℕ :=
  match get_parent reg rootId with
  | none => .error (-2)
  | some parent =>
    if cloneSources.any (fun c => c == parent.root_id) then
      .ok parent.root_id
    else
      match firstMin (srcAbsDiff reg parent)
          (cloneSources.filter (fun c => qualifies reg parent c)) with
      | none => .error (-2)
      | some w => .ok w

/-! ### The stream pump: `write_buf` and `dump_thread`

The kernel side of the pipe is modelled as a trace of read results, the sink
as an oracle mapping the index of each `write` call to its result.  Each
definition returns, besides its result, the bytes actually delivered to the
sink and the index of the next unused write-oracle entry. -/

/-- Result of one `write(2)` call: an error (positive errno) or a count of
bytes accepted.  POSIX guarantees the count never exceeds the requested
size; the model enforces that by clamping. -/
inductive WriteRes where
  | err (e : ℕ)
  | wrote (k : ℕ)
deriving DecidableEq, Repr

/-- The loop body of `write_buf` (lines 192-215), structurally recursive on
a fuel argument so that concrete runs reduce definitionally.  `write_buf`
always supplies `buf.length` as fuel, which bounds the number of iterations
because every successful write advances `pos` by at least one; the
`fuel = 0` branch with the loop guard still true is therefore never reached
from `write_buf`.  A negative return fails with `-errno`, a zero return with
`-EIO`, and a positive return advances `pos` and appends the accepted slice
to the sink. -/
def wbGo (W : ℕ → WriteRes) : ℕ → ℕ → List ℕ → ℕ →
    Except ℤ Unit × List ℕ × ℕ
  | 0, idx, _, _ => (.ok (), [], idx)
  | fuel + 1, idx, buf, pos =>
    if pos < buf.length then
      match W idx with
      | .err e => (.error (-(e : ℤ)), [], idx + 1)
      | .wrote 0 => (.error (-5), [], idx + 1)
      | .wrote (k + 1) =>
        ((wbGo W fuel (idx + 1) buf (pos + min (k + 1) (buf.length - pos))).1,
         ((buf.drop pos).take (min (k + 1) (buf.length - pos))) ++
           (wbGo W fuel (idx + 1) buf
             (pos + min (k + 1) (buf.length - pos))).2.1,
         (wbGo W fuel (idx + 1) buf
           (pos + min (k + 1) (buf.length - pos))).2.2)
    else (.ok (), [], idx)

/-- `write_buf` (lines 192-215): retry partial writes from `pos = 0` until
the whole buffer is flushed or a write fails (error, or zero treated as
`-EIO`). -/
def write_buf (W : ℕ → WriteRes) (idx : ℕ) (buf : List ℕ) :
    Except ℤ Unit × List ℕ × ℕ :=
  wbGo W buf.length idx buf 0

/-- Result of one `read(2)` call on the pipe: an error (positive errno) or a
chunk of bytes; the empty chunk is the end-of-stream signal. -/
inductive ReadRes where
  | err (e : ℕ)
  | chunk (b : List ℕ)
deriving DecidableEq, Repr

/-- The read/forward loop of `dump_thread` (lines 224-239): a read error
fails with `-errno`, a zero-length read terminates with success, any other
chunk is forwarded through `write_buf` whose failure aborts the loop.
An exhausted read trace stands for the kernel signalling end of stream. -/
def dumpCore (W : ℕ → WriteRes) : List ReadRes → ℕ →
    Except ℤ Unit × List ℕ × ℕ
  | [], idx => (.ok (), [], idx)
  | .err e :: _, idx => (.error (-(e : ℤ)), [], idx)
  | .chunk [] :: _, idx => (.ok (), [], idx)
  | .chunk (b :: bs) :: rest, idx =>
    match (write_buf W idx (b :: bs)).1 with
    | .error e =>
      (.error e, (write_buf W idx (b :: bs)).2.1,
       (write_buf W idx (b :: bs)).2.2)
    | .ok _ =>
      ((dumpCore W rest (write_buf W idx (b :: bs)).2.2).1,
       (write_buf W idx (b :: bs)).2.1 ++
         (dumpCore W rest (write_buf W idx (b :: bs)).2.2).2.1,
       (dumpCore W rest (write_buf W idx (b :: bs)).2.2).2.2)

/-- How control leaves the drain thread: either the thread terminates the
whole process (`exit(-ret)`, a positive exit code), or it returns a value to
whoever joins it (`ERR_PTR(ret)`). -/
inductive ThreadOutcome where
  | procExit (code : ℕ)
  | ret (v : ℤ)
deriving DecidableEq, Repr

/-- `dump_thread` (lines 217-247) including its epilogue (lines 241-246):
on any failure of the pump loop the thread calls `exit(-ret)` and the
process dies with the positive error code; otherwise it returns
`ERR_PTR(0)` to the joiner.  The second component is the bytes that reached
the sink. -/
def dump_thread (W : ℕ → WriteRes) (reads : List ReadRes) :
    ThreadOutcome × List ℕ :=
  match (dumpCore W reads 0).1 with
  | .error e => (.procExit (-e).toNat, (dumpCore W reads 0).2.1)
  | .ok _ => (.ret 0, (dumpCore W reads 0).2.1)

/-- How `do_send` concludes for one item: either the process has exited (the
drain thread failed and called `exit`), or `do_send` returns a value to
`cmd_send`. -/
inductive DoSendRes where
  | procExit (code : ℕ)
  | ret (v : ℤ)
deriving DecidableEq, Repr

/-- The completion logic of `do_send` (lines 295-325) combined with the
drain thread.  The model is sequential and resolves the race between the
drain thread's `exit` and the orchestrator in the drain's favour: when the
drain fails it has already terminated the process, so neither the ioctl
result nor the join is ever consulted.  When the drain terminates normally,
the ioctl result is checked first (lines 295-303), then `pthread_join`'s
`t_err` (lines 319-324), which the drain only ever sets to `ERR_PTR(0)`. -/
def do_send_model (ioctlRes : Except ℤ Unit) (W : ℕ → WriteRes)
    (reads : List ReadRes) : DoSendRes :=
  match (dump_thread W reads).1 with
  | .procExit c => .procExit c
  | .ret tErr =>
    match ioctlRes with
    | .error e => .ret e
    | .ok _ => if tErr ≠ 0 then .ret tErr else .ret 0

/-! ### Framing flags -/

/-- The per-item framing computation: lines 662-670 of `cmd_send` derive
`is_first_subvol`/`is_last_subvol` from the argv index (only under the new
end-cmd semantics enabled by `-e`), and lines 291-294 of `do_send` turn them
into the `OMIT_STREAM_HEADER` and `OMIT_END_CMD` flag bits, returned here as
the boolean pair (omit header, omit trailer). -/
def framing_flags (newEndCmdSemantic : Bool) (optind argc i : ℕ) :
    Bool × Bool :=
  let isFirst := if newEndCmdSemantic then i == optind else true
  let isLast := if newEndCmdSemantic then i == argc - 1 else true
  (!isFirst, !isLast)

/-! ### The `cmd_send` session: option handling, parent resolution and the
export loop -/

/-- The mutable state `cmd_send` threads through option handling and the
export loop: the `root_id` variable (written only by the `-c` handler, line
458), the pending `parent_root_id`, the clone-source array, and the
`full_send` flag. -/
structure SendState where
  root_id : ℕ
  parent_root_id : ℕ
  clone_sources : List ℕ
  full_send : Bool
deriving DecidableEq, Repr

/-- One `argv` snapshot argument together with the environment outcomes of
the system calls the send loop makes for it: the second `realpath` (lines
637-642), `is_subvol_ro` at send time (lines 653-660), the combined
ioctl-plus-drain outcome of `do_send` (lines 671-674), the `realloc` inside
`add_clone_source` (lines 676-683), and the outcome of the earlier
validation pass over the same argument (lines 587-623: realpath,
`find_mount_root`, same-filesystem check and read-only check — abstracted
to one outcome because no claim depends on which of those sub-steps
fails). -/
structure Item where
  name : ℕ
  realpathOk : Bool
  realpathErr : ℕ
  roRes : Except ℤ Bool
  sendOk : Bool
  sendErr : ℤ
  allocOk : Bool
  valOk : Bool
  valErr : ℤ
deriving Repr

/-- What one `do_send` invocation was given: the item, the
`parent_root_id` argument and the clone-source array at call time
(lines 287-290). -/
structure SendEvent where
  name : ℕ
  parent : ℕ
  clones : List ℕ
deriving DecidableEq, Repr

/-- Lines 644-651: when the session is incremental (`!full_send`) and no
parent is pending, run `find_good_parent` on the current `root_id` and
record the result in `parent_root_id`; any failure aborts. -/
def stepParent (reg : Registry) (st : SendState) : Except ℤ SendState :=
  if !st.full_send && st.parent_root_id == 0 then
    match find_good_parent reg st.clone_sources st.root_id with
    | .error e => .error e
    | .ok p => .ok { st with parent_root_id := p }
  else .ok st

/-- Lines 676-683: when the session is incremental, append the current
`root_id` variable to the clone sources (note: the variable, not the root
id of the snapshot just sent). -/
def stepAdd (st : SendState) (it : Item) : Except ℤ SendState :=
  if !st.full_send then
    match add_clone_source it.allocOk st.clone_sources st.root_id with
    | .error e => .error e
    | .ok cl => .ok { st with clone_sources := cl }
  else .ok st

/-- The body of the export loop (lines 628-686) for one item, returning the
updated state (or the error that aborts the session) and the `do_send`
invocation it performed, if it got that far: resolve the path; determine
the parent if needed (`stepParent`); re-check read-only; call `do_send`;
on success append the current `root_id` variable to the clone sources
(`stepAdd`) and clear the pending parent. -/
def itemStep (reg : Registry) (st : SendState) (it : Item) :
    Except ℤ SendState × Option SendEvent :=
  if !it.realpathOk then (.error (-(it.realpathErr : ℤ)), none)
  else
    match stepParent reg st with
    | .error e => (.error e, none)
    | .ok st1 =>
      match it.roRes with
      | .error e => (.error e, none)
      | .ok false => (.error (-22), none)
      | .ok true =>
        if !it.sendOk then
          (.error it.sendErr,
           some ⟨it.name, st1.parent_root_id, st1.clone_sources⟩)
        else
          match stepAdd st1 it with
          | .error e =>
            (.error e, some ⟨it.name, st1.parent_root_id, st1.clone_sources⟩)
          | .ok st2 =>
            (.ok { st2 with parent_root_id := 0 },
             some ⟨it.name, st1.parent_root_id, st1.clone_sources⟩)

/-- The export loop of `cmd_send` (lines 628-686): process the items in
order, aborting the whole session on the first failing item.  Returns the
final state (or the aborting error) and the list of `do_send` invocations
actually performed. -/
def sendLoop (reg : Registry) (st : SendState) :
    List Item → Except ℤ SendState × List SendEvent
  | [] => (.ok st, [])
  | it :: rest =>
    match itemStep reg st it with
    | (.error e, evOpt) => (.error e, evOpt.toList)
    | (.ok st', evOpt) =>
      ((sendLoop reg st' rest).1, evOpt.toList ++ (sendLoop reg st' rest).2)

/-- One command-line option relevant to the session state, with the
environment outcomes of the system calls its handler makes:
`-c <clone-src>` (lines 446-490) and `-p <parent>` (lines 498-522). -/
inductive SendOpt where
  | clone (path : ℕ) (realpathOk : Bool) (realpathErr : ℕ)
      (ro : Except ℤ Bool) (allocOk : Bool)
  | parent (path : ℕ) (realpathOk : Bool) (realpathErr : ℕ)
      (ro : Except ℤ Bool)

/-- State accumulated while handling options: the send state plus the
`snapshot_parent` variable (the resolved `-p` path, if any). -/
structure ParseState where
  st : SendState
  snapshot_parent : Option ℕ
deriving DecidableEq, Repr

/-- `cmd_send`'s initial state (line 425: `memset(&send, 0, ...)`;
`full_send = 1`, line 421). -/
def initPS : ParseState := ⟨⟨0, 0, [], true⟩, none⟩

/-- The `-c` handler (lines 446-490): resolve the path, resolve its root id
into the `root_id` variable, require the clone source to be read-only
(`-EINVAL` otherwise, lines 466-473), append it to the clone sources, and
clear `full_send`.  The `-p` handler (lines 498-522): reject a second
parent (`ret = 1`), resolve the path, require it to be read-only
(`-EINVAL` otherwise, lines 511-519), remember it in `snapshot_parent`, and
clear `full_send`. -/
def handleOpt (reg : Registry) (ps : ParseState) : SendOpt → Except ℤ ParseState
  | .clone p rpOk rpErr ro allocOk =>
    if !rpOk then .error (-(rpErr : ℤ))
    else
      match get_root_id reg p with
      | .error e => .error e
      | .ok rid =>
        match ro with
        | .error e => .error e
        | .ok false => .error (-22)
        | .ok true =>
          match add_clone_source allocOk ps.st.clone_sources rid with
          | .error e => .error e
          | .ok cl =>
            .ok { ps with st := { ps.st with
              root_id := rid, clone_sources := cl, full_send := false } }
  | .parent p rpOk rpErr ro =>
    match ps.snapshot_parent with
    | some _ => .error 1
    | none =>
      if !rpOk then .error (-(rpErr : ℤ))
      else
        match ro with
        | .error e => .error e
        | .ok false => .error (-22)
        | .ok true =>
          .ok { ps with
            snapshot_parent := some p
            st := { ps.st with full_send := false } }

/-- The option-processing loop (lines 429-536), aborting on the first
failing option. -/
def parseOpts (reg : Registry) (ps : ParseState) :
    List SendOpt → Except ℤ ParseState
  | [] => .ok ps
  | o :: rest =>
    match handleOpt reg ps o with
    | .error e => .error e
    | .ok ps' => parseOpts reg ps' rest

/-- Lines 571-585: if `-p` was given, resolve the parent path to
`parent_root_id` and add it to the clone sources before any item is
exported. -/
def resolveParent (reg : Registry) (allocOk : Bool) (ps : ParseState) :
    Except ℤ SendState :=
  match ps.snapshot_parent with
  | none => .ok ps.st
  | some pp =>
    match get_root_id reg pp with
    | .error e => .error e
    | .ok pr =>
      match add_clone_source allocOk ps.st.clone_sources pr with
      | .error e => .error e
      | .ok cl => .ok { ps.st with parent_root_id := pr, clone_sources := cl }

/-- The validation pass over all items (lines 587-623), run before any
`do_send`. -/
def validateItems : List Item → Except ℤ Unit
  | [] => .ok ()
  | it :: rest => if it.valOk then validateItems rest else .error it.valErr

/-- `cmd_send` end to end for the state the claims are about: handle the
options, resolve an explicit parent, validate every item, then run the
export loop.  Any failure before the export loop aborts with an empty
invocation trace. -/
def cmd_send_model (reg : Registry) (opts : List SendOpt)
    (parentAllocOk : Bool) (items : List Item) :
    Except ℤ SendState × List SendEvent :=
  match parseOpts reg initPS opts with
  | .error e => (.error e, [])
  | .ok ps =>
    match resolveParent reg parentAllocOk ps with
    | .error e => (.error e, [])
    | .ok st =>
      match validateItems items with
      | .error e => (.error e, [])
      | .ok _ => sendLoop reg st items

/-- Post-condition of the scan loop of `find_good_parent`, relating the
loop's final `best` record `p1` to the incoming accumulator and to the
earliest distance-minimising qualifying clone source (the last argument):
when no qualifying source exists the accumulator is returned unchanged;
when the winner's distance beats the incoming `best_diff` the loop ends on
the winner's registry record, otherwise on the accumulator. -/
def fgpPost (reg : Registry) (parent : SubvolInfo) (best : Option SubvolInfo)
    (bestDiff : ℕ) (p1 : Option SubvolInfo) : Option ℕ → Prop
  | none => p1 = best
  | some w =>
    if srcDiff reg parent w < bestDiff then
      ∃ sw, searchByRootId reg w = some sw ∧ p1 = some sw
    else p1 = best

/-! ### Concrete registries, items and oracles used by counterexamples and
witnesses -/

/-- A write oracle that honours every write request (with no read/write
failures and no zero-length writes): every call accepts a positive number of
bytes. -/
def GoodW (W : ℕ → WriteRes) : Prop := ∀ i, ∃ k, W i = .wrote (k + 1)

/-- A concrete sink that accepts two bytes per `write` call. -/
def W2 : ℕ → WriteRes := fun _ => .wrote 2

/-- Registry for the C1 counterexample: target root 1, its ancestor root 2
with `ctransid = 0`, and two sibling clone sources whose transaction ids
straddle the `__s64` sign boundary. -/
def regC1 : Registry :=
  [⟨1, 10, 20, 50, 1000⟩,
   ⟨2, 20, 0, 0, 2000⟩,
   ⟨3, 30, 20, 2 ^ 63 + 2, 3000⟩,
   ⟨4, 40, 20, 2 ^ 63 - 1, 4000⟩]

/-- Registry for the C3 scenario: a `-c` clone source C (root 5, path 500)
with its own ancestor (root 6), and two exported snapshots S1 (root 1,
uuid 11) and S2 (root 2) whose recorded ancestor is S1. -/
def regC3 : Registry :=
  [⟨5, 50, 60, 100, 500⟩,
   ⟨6, 60, 0, 90, 600⟩,
   ⟨1, 11, 60, 100, 100⟩,
   ⟨2, 22, 11, 110, 200⟩]

/-- An item all of whose environment interactions succeed. -/
def okItem (n : ℕ) : Item := ⟨n, true, 0, .ok true, true, 0, true, true, 0⟩

/-- An item whose send-time read-only check reports a writable subvolume. -/
def rwItem (n : ℕ) : Item := ⟨n, true, 0, .ok false, true, 0, true, true, 0⟩

end BtrfsSend

namespace BtrfsSend

/-! ### Basic lemmas about the registry and the parent search -/

theorem searchByRootId_root_id {reg : Registry} {c : ℕ} {si : SubvolInfo}
    (h : searchByRootId reg c = some si) : si.root_id = c := by
  have := List.find?_some h
  simpa using this

theorem get_parent_searchByRootId {reg : Registry} {c : ℕ} {p2 : SubvolInfo}
    (h : get_parent reg c = some p2) : ∃ si, searchByRootId reg c = some si := by
  unfold get_parent at h
  cases hs : searchByRootId reg c with
  | none => rw [hs] at h; exact absurd h (by simp)
  | some si => exact ⟨si, rfl⟩

theorem ctransidDiff_le (a b : ℕ) : ctransidDiff a b ≤ S64BOUND := by
  unfold ctransidDiff
  have hd : (a + U64MOD - b % U64MOD) % U64MOD < U64MOD :=
    Nat.mod_lt _ (by norm_num [U64MOD])
  split
  · omega
  · have : U64MOD = 2 * S64BOUND := by norm_num [U64MOD, S64BOUND]
    omega

theorem ctransidDiff_lt_init (a b : ℕ) : ctransidDiff a b < U64MOD - 1 := by
  have h := ctransidDiff_le a b
  have : S64BOUND < U64MOD - 1 := by norm_num [U64MOD, S64BOUND]
  omega

theorem qualifies_false_of_no_parent {reg : Registry} {parent : SubvolInfo}
    {c : ℕ} (h : get_parent reg c = none) : qualifies reg parent c = false := by
  simp [qualifies, h]

theorem qualifies_false_of_ne {reg : Registry} {parent p2 : SubvolInfo}
    {c : ℕ} (h : get_parent reg c = some p2)
    (hne : p2.root_id ≠ parent.root_id) : qualifies reg parent c = false := by
  simp [qualifies, h, hne]

theorem qualifies_true_of_eq {reg : Registry} {parent p2 : SubvolInfo}
    {c : ℕ} (h : get_parent reg c = some p2)
    (heq : p2.root_id = parent.root_id) : qualifies reg parent c = true := by
  simp [qualifies, h, heq]

theorem srcDiff_of_search {reg : Registry} {c : ℕ} {si : SubvolInfo}
    (parent : SubvolInfo) (h : searchByRootId reg c = some si) :
    srcDiff reg parent c = ctransidDiff si.ctransid parent.ctransid := by
  simp [srcDiff, srcCtransid, h]

theorem fgpPost_none {reg : Registry} {parent : SubvolInfo}
    {best p1 : Option SubvolInfo} {bestDiff : ℕ} :
    fgpPost reg parent best bestDiff p1 none = (p1 = best) := rfl

theorem fgpPost_some {reg : Registry} {parent : SubvolInfo}
    {best p1 : Option SubvolInfo} {bestDiff w : ℕ} :
    fgpPost reg parent best bestDiff p1 (some w) =
      if srcDiff reg parent w < bestDiff then
        ∃ sw, searchByRootId reg w = some sw ∧ p1 = some sw
      else p1 = best := rfl

theorem firstMin_cons {f : ℕ → ℕ} {c : ℕ} {l : List ℕ} :
    firstMin f (c :: l) =
      match firstMin f l with
      | none => some c
      | some b => if f c ≤ f b then some c else some b := rfl

/-- The scan loop of `find_good_parent` refines filter-then-first-minimum:
starting from any accumulator, the loop succeeds, and its final `best` is
the record of the earliest distance-minimising qualifying element when that
element beats the incoming `best_diff`, and the incoming accumulator
otherwise. -/
theorem fgpLoop_firstMin (reg : Registry) (parent : SubvolInfo) :
    ∀ (l : List ℕ) (best : Option SubvolInfo) (bestDiff : ℕ),
    ∃ p, fgpLoop reg parent l best bestDiff = .ok p ∧
      fgpPost reg parent best bestDiff p.1
        (firstMin (srcDiff reg parent)
          (l.filter (fun c => qualifies reg parent c))) := by
  intro l
  induction l with
  | nil =>
    intro best bestDiff
    exact ⟨(best, bestDiff), rfl, by simp [firstMin, fgpPost_none]⟩
  | cons c rest ih =>
    intro best bestDiff
    cases hgp : get_parent reg c with
    | none =>
      have hq := @qualifies_false_of_no_parent reg parent c hgp
      obtain ⟨p, hp, hmatch⟩ := ih best bestDiff
      refine ⟨p, ?_, ?_⟩
      · simpa [fgpLoop, hgp] using hp
      · simpa [List.filter_cons, hq] using hmatch
    | some p2 =>
      by_cases hroot : p2.root_id = parent.root_id
      · have hq := qualifies_true_of_eq hgp hroot
        obtain ⟨si, hsi⟩ := get_parent_searchByRootId hgp
        have hdc : srcDiff reg parent c = ctransidDiff si.ctransid parent.ctransid :=
          srcDiff_of_search parent hsi
        by_cases hlt : ctransidDiff si.ctransid parent.ctransid < bestDiff
        · obtain ⟨p, hp, hmatch⟩ :=
            ih (some si) (ctransidDiff si.ctransid parent.ctransid)
          refine ⟨p, ?_, ?_⟩
          · simpa [fgpLoop, hgp, hroot, hsi, hlt] using hp
          · rw [List.filter_cons, if_pos hq, firstMin_cons]
            cases hfm : firstMin (srcDiff reg parent)
                (rest.filter (fun c => qualifies reg parent c)) with
            | none =>
              rw [hfm, fgpPost_none] at hmatch
              rw [fgpPost_some, if_pos (by rw [hdc]; exact hlt)]
              exact ⟨si, hsi, hmatch⟩
            | some w =>
              rw [hfm, fgpPost_some] at hmatch
              show fgpPost reg parent best bestDiff p.1
                (if srcDiff reg parent c ≤ srcDiff reg parent w then some c
                 else some w)
              by_cases hle : srcDiff reg parent c ≤ srcDiff reg parent w
              · rw [if_pos hle, fgpPost_some, if_pos (by rw [hdc]; exact hlt)]
                rw [if_neg (by rw [hdc] at hle; omega)] at hmatch
                exact ⟨si, hsi, hmatch⟩
              · rw [if_neg hle, fgpPost_some]
                push_neg at hle
                rw [hdc] at hle
                rw [if_pos (by omega)]
                rw [if_pos hle] at hmatch
                exact hmatch
        · obtain ⟨p, hp, hmatch⟩ := ih best bestDiff
          refine ⟨p, ?_, ?_⟩
          · simpa [fgpLoop, hgp, hroot, hsi, hlt] using hp
          · rw [List.filter_cons, if_pos hq, firstMin_cons]
            cases hfm : firstMin (srcDiff reg parent)
                (rest.filter (fun c => qualifies reg parent c)) with
            | none =>
              rw [hfm, fgpPost_none] at hmatch
              rw [fgpPost_some, if_neg (by rw [hdc]; exact hlt)]
              exact hmatch
            | some w =>
              rw [hfm, fgpPost_some] at hmatch
              show fgpPost reg parent best bestDiff p.1
                (if srcDiff reg parent c ≤ srcDiff reg parent w then some c
                 else some w)
              by_cases hle : srcDiff reg parent c ≤ srcDiff reg parent w
              · rw [if_pos hle, fgpPost_some, if_neg (by rw [hdc]; exact hlt)]
                rw [hdc] at hle
                rw [if_neg (by omega)] at hmatch
                exact hmatch
              · rw [if_neg hle, fgpPost_some]
                exact hmatch
      · have hq := qualifies_false_of_ne hgp hroot
        obtain ⟨p, hp, hmatch⟩ := ih best bestDiff
        refine ⟨p, ?_, ?_⟩
        · simpa [fgpLoop, hgp, hroot] using hp
        · simpa [List.filter_cons, hq] using hmatch

/-! ### Claim C1 -/

/-- C1 (counterexample): on `regC1` the target's ancestor (root 2,
`ctransid 0`) is not a clone source, both clone sources 3 and 4 qualify as
siblings, source 4 has the strictly smaller **absolute** transaction-id
difference (`2^63 - 1 < 2^63 + 2`), so the claim's selection rule
(`claimC1Select`, worded exactly as the claim) picks 4 — but
`find_good_parent` picks 3, because its `__s64` wrapped distance for
source 3 (`2^63 - 2`) is smaller.  The claim as stated is therefore false
on this input. -/
theorem c1_counterexample :
    find_good_parent regC1 [3, 4] 1 = .ok 3 ∧
    claimC1Select regC1 [3, 4] 1 = .ok 4 ∧
    srcAbsDiff regC1 ⟨2, 20, 0, 0, 2000⟩ 3 >
      srcAbsDiff regC1 ⟨2, 20, 0, 0, 2000⟩ 4 ∧
    (Except.ok 3 : Except ℤ ℕ) ≠ .ok 4 := by
  refine ⟨rfl, rfl, by decide, by simp⟩

/-- C1 (amended): for every target whose recorded ancestor exists but whose
ancestor's root id is not among the clone sources, `find_good_parent` scans
the clone sources in insertion order, keeps exactly those whose own
recorded ancestor's root id equals the target's ancestor's root id, and
returns the kept source whose `ctransid` minimises the **64-bit
two's-complement** distance `ctransidDiff` to the ancestor's `ctransid`
(the true absolute difference whenever that difference is below `2^63`),
ties broken in favour of the earliest-inserted source; if no source
qualifies it fails with `-ENOENT`. -/
theorem c1_amended (reg : Registry) (cs : List ℕ) (rootId : ℕ)
    (parent : SubvolInfo) (hpar : get_parent reg rootId = some parent)
    (hnot : parent.root_id ∉ cs) :
    find_good_parent reg cs rootId =
      match firstMin (srcDiff reg parent)
          (cs.filter (fun c => qualifies reg parent c)) with
      | none => .error (-2)
      | some w => .ok w := by
  have hany : cs.any (fun c => c == parent.root_id) = false := by
    simp only [List.any_eq_false, beq_iff_eq]
    intro x hx he
    exact hnot (he ▸ hx)
  obtain ⟨p, hp, hpost⟩ := fgpLoop_firstMin reg parent cs none (U64MOD - 1)
  unfold find_good_parent
  rw [hpar]
  simp only [hany, Bool.false_eq_true, if_false, hp]
  cases hfm : firstMin (srcDiff reg parent)
      (cs.filter (fun c => qualifies reg parent c)) with
  | none =>
    rw [hfm, fgpPost_none] at hpost
    obtain ⟨p1, p2⟩ := p
    have hp1 : p1 = none := hpost
    subst hp1
    rfl
  | some w =>
    rw [hfm, fgpPost_some] at hpost
    have hlt : srcDiff reg parent w < U64MOD - 1 := ctransidDiff_lt_init _ _
    rw [if_pos hlt] at hpost
    obtain ⟨sw, hsw, hp1'⟩ := hpost
    obtain ⟨p1, p2⟩ := p
    have hp1 : p1 = some sw := hp1'
    subst hp1
    simp [searchByRootId_root_id hsw]

/-- C1 (witness): the amended characterisation applied to the concrete
registry `regC1`. -/
theorem c1_amended_witness :
    find_good_parent regC1 [3, 4] 1 =
      match firstMin (srcDiff regC1 ⟨2, 20, 0, 0, 2000⟩)
          ([3, 4].filter (fun c => qualifies regC1 ⟨2, 20, 0, 0, 2000⟩ c)) with
      | none => .error (-2)
      | some w => .ok w :=
  c1_amended regC1 [3, 4] 1 ⟨2, 20, 0, 0, 2000⟩ rfl (by decide)

/-! ### Claim C2 -/

/-- C2: whenever the target's recorded ancestor resolves and its root id is
present in the clone-source set, `find_good_parent` returns exactly that
root id, regardless of what else the clone-source set contains: the
exact-ancestry match short-circuits the similarity scan. -/
theorem c2_exact_match (reg : Registry) (cs : List ℕ) (rootId : ℕ)
    (parent : SubvolInfo) (hpar : get_parent reg rootId = some parent)
    (hmem : parent.root_id ∈ cs) :
    find_good_parent reg cs rootId = .ok parent.root_id := by
  have hany : cs.any (fun c => c == parent.root_id) = true := by
    rw [List.any_eq_true]
    exact ⟨parent.root_id, hmem, by simp⟩
  unfold find_good_parent
  rw [hpar]
  simp [hany]

/-- C2 (witness): on `regC3`, snapshot root 2's recorded ancestor is root 1,
which is present in the clone-source set `[5, 1]`, and the search returns 1
even though source 5 is also present. -/
theorem c2_exact_match_witness : find_good_parent regC3 [5, 1] 2 = .ok 1 :=
  c2_exact_match regC3 [5, 1] 2 ⟨1, 11, 60, 100, 100⟩ rfl (by decide)

/-! ### Claim C3 -/

/-- C3: the claim says that after each successful item the snapshot's own
root id is added to the clone sources, so that exporting `[S1, S2]` with
S2's ancestor equal to S1 makes S2 short-circuit to S1.  The code instead
appends the stale `root_id` variable — last written by the `-c` option
handler — and also passes that stale value to `find_good_parent` as the
target.  On `regC3` (clone source C = root 5, S1 = root 1, S2 = root 2 with
ancestor S1): both items are sent with parent 5, the clone-source set grows
`[5] → [5,5] → [5,5,5]`, S1's root 1 is never added, and S2's `do_send`
call does not receive parent 1 — although `find_good_parent` run on S2's
actual root (2) with S1 present, as the claim intends, would short-circuit
to 1 (last conjunct). -/
theorem c3_stale_root_id :
    cmd_send_model regC3 [.clone 500 true 0 (.ok true) true] true
        [okItem 1, okItem 2] =
      (.ok ⟨5, 0, [5, 5, 5], false⟩,
       [⟨1, 5, [5]⟩, ⟨2, 5, [5, 5]⟩]) ∧
    (1 : ℕ) ∉ [5, 5] ∧
    find_good_parent regC3 [5, 1] 2 = .ok 1 := by
  refine ⟨rfl, by decide, rfl⟩

/-! ### Claim C4 -/

/-- C4 (counterexample): `add_clone_source` is not idempotent — adding a
root id that is already present appends it again, so the iteration sequence
contains it twice, not exactly once as the claim states. -/
theorem c4_counterexample :
    add_clone_source true [5] 5 = .ok [5, 5] ∧
    ¬ (List.count 5 [5, 5] = 1) := ⟨rfl, by decide⟩

/-- C4 (amended): adding a root id that is already present is silently
accepted — `add_clone_source` never fails for a domain reason, only under
allocation failure — but it appends unconditionally, so the iteration
sequence afterwards contains the root id once more than before (duplicates
are kept, not rejected). -/
theorem c4_amended (l : List ℕ) (x : ℕ) :
    add_clone_source true l x = .ok (l ++ [x]) ∧
    List.count x (l ++ [x]) = List.count x l + 1 ∧
    add_clone_source false l x = .error (-12) := by
  refine ⟨rfl, ?_, rfl⟩
  simp [List.count_append]

/-! ### Claim C5 -/

/-- C5: the framing flags are a pure function of the item's position and the
session-wide `-e` flag: with extended framing (`-e`), an item at offset `i`
of `n` omits the stream header exactly when it is not the first item and
omits the end command exactly when it is not the last; with legacy framing
both flags are always false. -/
theorem c5_framing (ext : Bool) (optind n i : ℕ) (h : i < n) :
    framing_flags ext optind (optind + n) (optind + i) =
      (ext && !(i == 0), ext && !(i == n - 1)) := by
  cases ext with
  | false => simp [framing_flags]
  | true =>
    have h1 : (optind + i == optind) = (i == 0) := by
      by_cases hi : i = 0
      · simp [hi]
      · have h2 : optind + i ≠ optind := by omega
        simp [hi, h2]
    have h3 : (optind + i == optind + n - 1) = (i == n - 1) := by
      by_cases hi : i = n - 1
      · subst hi
        have h4 : optind + (n - 1) = optind + n - 1 := by omega
        simp [h4]
      · have h4 : optind + i ≠ optind + n - 1 := by omega
        simp [hi, h4]
    simp [framing_flags, h1, h3]

/-- C5 (witness): the middle item of a three-item batch under extended
framing omits both the header and the trailer. -/
theorem c5_framing_witness : framing_flags true 2 5 3 = (true, true) := by
  have h := c5_framing true 2 3 1 (by decide)
  simpa using h

/-! ### Stream-pump lemmas -/

theorem wbGo_good (W : ℕ → WriteRes) (hW : GoodW W) :
    ∀ (fuel : ℕ) (buf : List ℕ) (pos idx : ℕ), buf.length - pos ≤ fuel →
    (wbGo W fuel idx buf pos).1 = .ok () ∧
    (wbGo W fuel idx buf pos).2.1 = buf.drop pos := by
  intro fuel
  induction fuel with
  | zero =>
    intro buf pos idx h
    exact ⟨rfl, (List.drop_eq_nil_of_le (by omega)).symm⟩
  | succ fuel ih =>
    intro buf pos idx h
    by_cases hpos : pos < buf.length
    · obtain ⟨k, hk⟩ := hW idx
      have hrem : buf.length - (pos + min (k + 1) (buf.length - pos)) ≤ fuel := by
        have hone : 1 ≤ min (k + 1) (buf.length - pos) := by omega
        omega
      obtain ⟨h1, h2⟩ := ih buf (pos + min (k + 1) (buf.length - pos)) (idx + 1) hrem
      have hdd : buf.drop (pos + min (k + 1) (buf.length - pos)) =
          (buf.drop pos).drop (min (k + 1) (buf.length - pos)) := by
        rw [List.drop_drop]
      simp only [wbGo, if_pos hpos, hk]
      refine ⟨h1, ?_⟩
      rw [h2, hdd, List.take_append_drop]
    · simp only [wbGo, if_neg hpos]
      refine ⟨trivial, ?_⟩
      rw [List.drop_eq_nil_of_le (by omega)]

theorem write_buf_good (W : ℕ → WriteRes) (hW : GoodW W) (idx : ℕ)
    (buf : List ℕ) :
    (write_buf W idx buf).1 = .ok () ∧ (write_buf W idx buf).2.1 = buf := by
  have h := wbGo_good W hW buf.length buf 0 idx (by omega)
  simpa [write_buf] using h

theorem write_buf_err (W : ℕ → WriteRes) (idx : ℕ) (buf : List ℕ) (e : ℕ)
    (hbuf : buf ≠ []) (hW : W idx = .err e) :
    (write_buf W idx buf).1 = .error (-(e : ℤ)) := by
  cases buf with
  | nil => exact absurd rfl hbuf
  | cons b bs =>
    rw [write_buf]
    simp only [List.length_cons, wbGo, hW]
    simp

theorem write_buf_zero (W : ℕ → WriteRes) (idx : ℕ) (buf : List ℕ)
    (hbuf : buf ≠ []) (hW : W idx = .wrote 0) :
    (write_buf W idx buf).1 = .error (-5) := by
  cases buf with
  | nil => exact absurd rfl hbuf
  | cons b bs =>
    rw [write_buf]
    simp only [List.length_cons, wbGo, hW]
    simp

theorem dumpCore_good (W : ℕ → WriteRes) (hW : GoodW W) :
    ∀ (chunks : List (List ℕ)) (rest : List ReadRes) (idx : ℕ),
    (∀ c ∈ chunks, c ≠ []) →
    (dumpCore W (chunks.map ReadRes.chunk ++ ReadRes.chunk [] :: rest) idx).1
        = .ok () ∧
    (dumpCore W (chunks.map ReadRes.chunk ++ ReadRes.chunk [] :: rest) idx).2.1
        = chunks.flatten := by
  intro chunks
  induction chunks with
  | nil => intro rest idx _; simp [dumpCore]
  | cons c cs ih =>
    intro rest idx hne
    have hc : c ≠ [] := hne c (by simp)
    cases c with
    | nil => exact absurd rfl hc
    | cons b bs =>
      obtain ⟨h1, h2⟩ := write_buf_good W hW idx (b :: bs)
      obtain ⟨h3, h4⟩ := ih rest (write_buf W idx (b :: bs)).2.2
        (fun c hc => hne c (by simp [hc]))
      simp only [List.map_cons, List.cons_append, List.append_eq, dumpCore,
        h1, h2]
      rw [List.flatten_cons]
      exact ⟨h3, by rw [h4]; rfl⟩

theorem dumpCore_read_err (W : ℕ → WriteRes) (hW : GoodW W) :
    ∀ (chunks : List (List ℕ)) (rest : List ReadRes) (idx e : ℕ),
    (∀ c ∈ chunks, c ≠ []) →
    (dumpCore W (chunks.map ReadRes.chunk ++ ReadRes.err e :: rest) idx).1
        = .error (-(e : ℤ)) := by
  intro chunks
  induction chunks with
  | nil => intro rest idx e _; simp [dumpCore]
  | cons c cs ih =>
    intro rest idx e hne
    have hc : c ≠ [] := hne c (by simp)
    cases c with
    | nil => exact absurd rfl hc
    | cons b bs =>
      obtain ⟨h1, _⟩ := write_buf_good W hW idx (b :: bs)
      have h3 := ih rest (write_buf W idx (b :: bs)).2.2 e
        (fun c hc => hne c (by simp [hc]))
      simp only [List.map_cons, List.cons_append, List.append_eq, dumpCore, h1]
      exact h3

/-! ### Claim C6 -/

/-- C6: for every sequence of nonempty chunks followed by a zero-length
read, the pump terminates successfully having forwarded exactly the bytes
read before the terminator, in order (first conjunct); every chunk is
forwarded by a write loop that retries partial writes until the whole chunk
is flushed (second conjunct, for any well-behaved sink, including sinks
that accept only part of each request); and the pump fails with a transfer
error exactly on a read error (third conjunct) or on a write that returns
an error or zero (fourth and fifth conjuncts). -/
theorem c6_stream_pump (W : ℕ → WriteRes) (hW : GoodW W)
    (chunks : List (List ℕ)) (rest : List ReadRes) (e : ℕ)
    (hchunks : ∀ c ∈ chunks, c ≠ []) :
    ((dumpCore W (chunks.map ReadRes.chunk ++ ReadRes.chunk [] :: rest) 0).1
        = .ok () ∧
     (dumpCore W (chunks.map ReadRes.chunk ++ ReadRes.chunk [] :: rest) 0).2.1
        = chunks.flatten) ∧
    (∀ (buf : List ℕ) (idx : ℕ),
      (write_buf W idx buf).1 = .ok () ∧ (write_buf W idx buf).2.1 = buf) ∧
    (dumpCore W (chunks.map ReadRes.chunk ++ ReadRes.err e :: rest) 0).1
        = .error (-(e : ℤ)) ∧
    (∀ (W' : ℕ → WriteRes) (idx : ℕ) (buf : List ℕ) (e' : ℕ), buf ≠ [] →
      W' idx = .err e' → (write_buf W' idx buf).1 = .error (-(e' : ℤ))) ∧
    (∀ (W' : ℕ → WriteRes) (idx : ℕ) (buf : List ℕ), buf ≠ [] →
      W' idx = .wrote 0 → (write_buf W' idx buf).1 = .error (-5)) := by
  refine ⟨dumpCore_good W hW chunks rest 0 hchunks,
    fun buf idx => write_buf_good W hW idx buf,
    dumpCore_read_err W hW chunks rest 0 e hchunks,
    fun W' idx buf e' h1 h2 => write_buf_err W' idx buf e' h1 h2,
    fun W' idx buf h1 h2 => write_buf_zero W' idx buf h1 h2⟩

/-- C6 (witness): a sink that accepts two bytes per call (so the three-byte
chunk needs a retried partial write) receives exactly `[1,2,3,4]` from the
chunk sequence `[[1,2,3],[4]]` followed by the zero-length terminator, and
the pump succeeds. -/
theorem c6_stream_pump_witness :
    (dumpCore W2 ([[1, 2, 3], [4]].map ReadRes.chunk ++
        ReadRes.chunk [] :: []) 0).1 = .ok () ∧
    (dumpCore W2 ([[1, 2, 3], [4]].map ReadRes.chunk ++
        ReadRes.chunk [] :: []) 0).2.1 = [1, 2, 3, 4] := by
  have h := c6_stream_pump W2 (fun i => ⟨1, rfl⟩) [[1, 2, 3], [4]] [] 9
    (by decide)
  exact ⟨h.1.1, h.1.2.trans (by decide)⟩

/-! ### Claim C7 -/

/-- C7 (counterexample): with a concurrent generator failure
(`ioctl = -EIO`) and a drain failure (read error 7), `do_send` does not
wait for the generator and report the drain's failure as the item's error:
the drain thread has already terminated the whole process via `exit(7)`, so
the item-level result the claim describes (`ret (-7)`) never happens. -/
theorem c7_counterexample :
    do_send_model (.error (-5)) W2 [.err 7] = .procExit 7 ∧
    DoSendRes.procExit 7 ≠ DoSendRes.ret (-7) := ⟨rfl, by simp⟩

/-- C7 (amended): when the drain task fails, the drain thread terminates
the entire process immediately via `exit` with the positive error code,
regardless of the generator invocation's result — the drain-side error is
authoritative, but by process exit rather than by waiting and reporting.
Moreover the thread's return value, the only thing the orchestrator's join
path can observe, is always 0, so `do_send`'s join-based error reporting
never fires. -/
theorem c7_amended (ioctlRes : Except ℤ Unit) (W : ℕ → WriteRes)
    (reads : List ReadRes) (e : ℤ)
    (hfail : (dumpCore W reads 0).1 = .error e) :
    do_send_model ioctlRes W reads = .procExit (-e).toNat ∧
    (∀ (W' : ℕ → WriteRes) (reads' : List ReadRes) (v : ℤ),
      (dump_thread W' reads').1 = .ret v → v = 0) := by
  constructor
  · unfold do_send_model dump_thread
    rw [hfail]
  · intro W' reads' v hv
    unfold dump_thread at hv
    cases h : (dumpCore W' reads' 0).1 with
    | error e' => rw [h] at hv; simp at hv
    | ok u => rw [h] at hv; simp at hv; omega

/-- C7 (witness): the amended behaviour at a concrete failing drain: a read
error 7 with a concurrently failing generator ends in process exit 7. -/
theorem c7_amended_witness :
    do_send_model (.error (-5)) W2 [.err 7] = .procExit 7 ∧
    do_send_model (.ok ()) W2 [.err 9] = .procExit 9 := by
  have h1 := c7_amended (.error (-5)) W2 [.err 7] (-7) rfl
  have h2 := c7_amended (.ok ()) W2 [.err 9] (-9) rfl
  exact ⟨h1.1, h2.1⟩

/-! ### Export-loop lemmas -/

theorem stepParent_fields {reg : Registry} {st st1 : SendState}
    (h : stepParent reg st = .ok st1) :
    st1.clone_sources = st.clone_sources ∧ st1.root_id = st.root_id ∧
    st1.full_send = st.full_send := by
  unfold stepParent at h
  split at h
  · cases hf : find_good_parent reg st.clone_sources st.root_id with
    | error e => rw [hf] at h; exact absurd h (by simp)
    | ok p =>
      rw [hf] at h
      injection h with h2
      subst h2
      exact ⟨rfl, rfl, rfl⟩
  · injection h with h2
    subst h2
    exact ⟨rfl, rfl, rfl⟩

theorem stepAdd_clones {st st2 : SendState} {it : Item}
    (h : stepAdd st it = .ok st2) :
    st2.clone_sources = st.clone_sources ∨
    st2.clone_sources = st.clone_sources ++ [st.root_id] := by
  unfold stepAdd at h
  split at h
  · cases hA : it.allocOk with
    | false => simp [add_clone_source, hA] at h
    | true =>
      simp only [add_clone_source, hA, if_true] at h
      injection h with h2
      subst h2
      right
      rfl
  · injection h with h2
    subst h2
    left
    rfl

theorem itemStep_some_clones {reg : Registry} {st : SendState} {it : Item}
    {r : Except ℤ SendState} {ev : SendEvent}
    (h : itemStep reg st it = (r, some ev)) :
    ev.clones = st.clone_sources := by
  unfold itemStep at h
  split at h
  · simp at h
  · split at h
    · simp at h
    · rename_i st1 hsp
      split at h
      · simp at h
      · simp at h
      · split at h
        · have hsnd := congrArg Prod.snd h
          simp at hsnd
          subst hsnd
          exact (stepParent_fields hsp).1
        · split at h
          · have hsnd := congrArg Prod.snd h
            simp at hsnd
            subst hsnd
            exact (stepParent_fields hsp).1
          · have hsnd := congrArg Prod.snd h
            simp at hsnd
            subst hsnd
            exact (stepParent_fields hsp).1

theorem itemStep_ok_clones {reg : Registry} {st st' : SendState} {it : Item}
    {ev : Option SendEvent}
    (h : itemStep reg st it = (.ok st', ev)) :
    st'.clone_sources = st.clone_sources ∨
    st'.clone_sources = st.clone_sources ++ [st.root_id] := by
  unfold itemStep at h
  split at h
  · simp at h
  · split at h
    · simp at h
    · rename_i st1 hsp
      obtain ⟨hc, hr, -⟩ := stepParent_fields hsp
      split at h
      · simp at h
      · simp at h
      · split at h
        · simp at h
        · split at h
          · simp at h
          · rename_i st2 hsa
            have hfst := congrArg Prod.fst h
            simp at hfst
            rcases stepAdd_clones hsa with h1 | h1
            · left
              rw [← hfst]
              show st2.clone_sources = st.clone_sources
              rw [h1, hc]
            · right
              rw [← hfst]
              show st2.clone_sources = st.clone_sources ++ [st.root_id]
              rw [h1, hc, hr]

theorem sendLoop_cons_error (reg : Registry) (st : SendState) (it : Item)
    (rest : List Item) (e : ℤ) (evOpt : Option SendEvent)
    (h : itemStep reg st it = (.error e, evOpt)) :
    sendLoop reg st (it :: rest) = (.error e, evOpt.toList) := by
  simp only [sendLoop, h]

theorem sendLoop_cons_ok (reg : Registry) (st : SendState) (it : Item)
    (rest : List Item) (st' : SendState) (evOpt : Option SendEvent)
    (h : itemStep reg st it = (.ok st', evOpt)) :
    sendLoop reg st (it :: rest) =
      ((sendLoop reg st' rest).1,
       evOpt.toList ++ (sendLoop reg st' rest).2) := by
  simp only [sendLoop, h]

theorem sendLoop_append_ok (reg : Registry) (pre rest : List Item)
    (st st' : SendState) (tr : List SendEvent)
    (h : sendLoop reg st pre = (.ok st', tr)) :
    sendLoop reg st (pre ++ rest) =
      ((sendLoop reg st' rest).1, tr ++ (sendLoop reg st' rest).2) := by
  induction pre generalizing st tr with
  | nil =>
    have h2 : st = st' ∧ [] = tr := by simpa [sendLoop] using h
    obtain ⟨h3, h4⟩ := h2
    subst h3
    subst h4
    simp
  | cons it pre ih =>
    cases hstep : itemStep reg st it with
    | mk r evOpt =>
      cases r with
      | error e =>
        rw [sendLoop_cons_error reg st it pre e evOpt hstep] at h
        simp at h
      | ok st0 =>
        rw [sendLoop_cons_ok reg st it pre st0 evOpt hstep] at h
        cases hpre : sendLoop reg st0 pre with
        | mk r2 tr2 =>
          rw [hpre] at h
          simp only [Prod.mk.injEq] at h
          obtain ⟨h1, h2⟩ := h
          subst h2
          rw [List.cons_append, sendLoop_cons_ok reg st it (pre ++ rest) st0
            evOpt hstep]
          rw [ih st0 tr2 (by rw [hpre, h1])]
          rw [List.append_assoc]

theorem sendLoop_clones_mono (reg : Registry) :
    ∀ (items : List Item) (st : SendState) (x : ℕ), x ∈ st.clone_sources →
    ∀ ev ∈ (sendLoop reg st items).2, x ∈ ev.clones := by
  intro items
  induction items with
  | nil => intro st x hx ev hev; simp [sendLoop] at hev
  | cons it rest ih =>
    intro st x hx ev hev
    cases hstep : itemStep reg st it with
    | mk r evOpt =>
      cases r with
      | error e =>
        rw [sendLoop_cons_error reg st it rest e evOpt hstep] at hev
        cases evOpt with
        | none => simp at hev
        | some ev0 =>
          simp at hev
          subst hev
          rw [itemStep_some_clones hstep]
          exact hx
      | ok st0 =>
        rw [sendLoop_cons_ok reg st it rest st0 evOpt hstep] at hev
        simp only [List.mem_append] at hev
        rcases hev with hev | hev
        · cases evOpt with
          | none => simp at hev
          | some ev0 =>
            simp at hev
            subst hev
            rw [itemStep_some_clones hstep]
            exact hx
        · refine ih st0 x ?_ ev hev
          rcases itemStep_ok_clones hstep with h1 | h1
          · rw [h1]; exact hx
          · rw [h1]; exact List.mem_append_left _ hx

theorem parseOpts_append_err (reg : Registry) :
    ∀ (o1 : List SendOpt) (ps ps1 : ParseState) (o : SendOpt)
      (o2 : List SendOpt) (e : ℤ),
    parseOpts reg ps o1 = .ok ps1 → handleOpt reg ps1 o = .error e →
    parseOpts reg ps (o1 ++ o :: o2) = .error e := by
  intro o1
  induction o1 with
  | nil =>
    intro ps ps1 o o2 e hok hfail
    have h2 : ps = ps1 := by simpa [parseOpts] using hok
    subst h2
    simp [parseOpts, hfail]
  | cons o0 o1 ih =>
    intro ps ps1 o o2 e hok hfail
    cases h0 : handleOpt reg ps o0 with
    | error e0 => simp [parseOpts, h0] at hok
    | ok ps' =>
      have hok2 : parseOpts reg ps' o1 = .ok ps1 := by
        simpa [parseOpts, h0] using hok
      rw [List.cons_append]
      simp only [parseOpts, h0]
      exact ih ps' ps1 o o2 e hok2 hfail

/-! ### Claim C8 -/

/-- C8: if, after any successfully processed prefix of the batch, any step
of the next item fails — path resolution, parent determination, the
read-only check, the generator invocation with its drain, or the
clone-source update (all the failure cases of `itemStep`) — the session
returns that item's error, and the `do_send` invocation trace is exactly
the prefix's trace plus at most the failing item's own invocation,
independently of the items that follow: no later item is processed and the
failing item is not skipped. -/
theorem c8_abort (reg : Registry) (st : SendState) (pre : List Item)
    (it : Item) (post : List Item) (st' : SendState) (tr : List SendEvent)
    (e : ℤ) (hpre : sendLoop reg st pre = (.ok st', tr))
    (hfail : (itemStep reg st' it).1 = .error e) :
    sendLoop reg st (pre ++ it :: post) =
      (.error e, tr ++ (itemStep reg st' it).2.toList) := by
  rw [sendLoop_append_ok reg pre (it :: post) st st' tr hpre]
  cases hstep : itemStep reg st' it with
  | mk r evOpt =>
    have hr : r = .error e := by rw [hstep] at hfail; exact hfail
    subst hr
    rw [sendLoop_cons_error reg st' it post e evOpt hstep]

/-- C8 (witness): a batch whose first item fails its read-only check aborts
with `-EINVAL` before the second item, whose `do_send` is never invoked. -/
theorem c8_abort_witness :
    sendLoop ([] : Registry) ⟨0, 0, [], true⟩
      ([] ++ rwItem 1 :: [okItem 2]) = (.error (-22), []) := by
  have h := c8_abort [] ⟨0, 0, [], true⟩ [] (rwItem 1) [okItem 2]
    ⟨0, 0, [], true⟩ [] (-22) rfl rfl
  exact h.trans (by rfl)

/-! ### Claim C9 -/

/-- C9: when `-p` was accepted during option handling, `cmd_send` resolves
the parent path to a root id and appends it to the clone sources before the
first snapshot is exported (first conjunct), and consequently every
`do_send` invocation of the batch — the first one included — receives a
clone-source array containing the explicit parent's root id, which every
later item's sibling search also scans (second conjunct). -/
theorem c9_explicit_parent (reg : Registry) (opts : List SendOpt)
    (items : List Item) (ps : ParseState) (pp pr : ℕ)
    (hparse : parseOpts reg initPS opts = .ok ps)
    (hsp : ps.snapshot_parent = some pp)
    (hres : get_root_id reg pp = .ok pr) :
    (∃ st, resolveParent reg true ps = .ok st ∧ pr ∈ st.clone_sources ∧
      st.parent_root_id = pr) ∧
    ∀ ev ∈ (cmd_send_model reg opts true items).2, pr ∈ ev.clones := by
  have hstep : resolveParent reg true ps =
      .ok { ps.st with
        parent_root_id := pr
        clone_sources := ps.st.clone_sources ++ [pr] } := by
    unfold resolveParent
    rw [hsp]
    simp [hres, add_clone_source]
  refine ⟨⟨_, hstep, by simp, rfl⟩, ?_⟩
  intro ev hev
  unfold cmd_send_model at hev
  simp only [hparse] at hev
  simp only [hstep] at hev
  cases hval : validateItems items with
  | error e2 => simp only [hval] at hev; simp at hev
  | ok u =>
    simp only [hval] at hev
    exact sendLoop_clones_mono reg items _ pr (by simp) ev hev

/-- C9 (witness): with `-p` naming the subvolume at path 600 (root id 6) of
`regC3`, the single item's `do_send` invocation carries 6 among its clone
sources. -/
theorem c9_explicit_parent_witness :
    (6 : ℕ) ∈ (SendEvent.mk 1 6 [6]).clones :=
  (c9_explicit_parent regC3 [.parent 600 true 0 (.ok true)] [okItem 1]
    ⟨⟨0, 0, [], false⟩, some 600⟩ 600 6 rfl rfl rfl).2
    ⟨1, 6, [6]⟩ (by decide)

/-! ### Claim C10 -/

/-- C10: a clone source (`-c`) or explicit parent (`-p`) must be read-only.
First conjunct: a flags word without the read-only bit makes `is_subvol_ro`
report writable.  Second and third conjuncts: the `-c` and `-p` handlers
fail with `-EINVAL` on a writable subvolume.  Fourth conjunct: any failing
option aborts `cmd_send` with an empty `do_send` trace — before any stream
bytes are produced. -/
theorem c10_ro_guard (reg : Registry) (ps : ParseState) (p rpErr : ℕ)
    (alloc : Bool) (rid : ℕ) (o1 o2 : List SendOpt) (o : SendOpt) (e : ℤ)
    (items : List Item) (ps1 : ParseState) (flags : ℕ) :
    (flags &&& BTRFS_SUBVOL_RDONLY = 0 →
      is_subvol_ro (.ok ()) (.ok ()) flags = .ok false) ∧
    (get_root_id reg p = .ok rid →
      handleOpt reg ps (.clone p true rpErr (.ok false) alloc) =
        .error (-22)) ∧
    (ps.snapshot_parent = none →
      handleOpt reg ps (.parent p true rpErr (.ok false)) = .error (-22)) ∧
    (parseOpts reg initPS o1 = .ok ps1 → handleOpt reg ps1 o = .error e →
      cmd_send_model reg (o1 ++ o :: o2) alloc items = (.error e, [])) := by
  refine ⟨?_, ?_, ?_, ?_⟩
  · intro h
    simp [is_subvol_ro, h]
  · intro h
    simp [handleOpt, h]
  · intro h
    simp [handleOpt, h]
  · intro hps hf
    unfold cmd_send_model
    rw [parseOpts_append_err reg o1 initPS ps1 o o2 e hps hf]

/-- C10 (witness): a writable clone source aborts the whole session with
`-EINVAL` and an empty invocation trace. -/
theorem c10_ro_guard_witness :
    cmd_send_model regC3 [.clone 500 true 0 (.ok false) true] true
      [okItem 1] = (.error (-22), []) := by
  have h := c10_ro_guard regC3 initPS 500 0 true 5 []
    [] (.clone 500 true 0 (.ok false) true) (-22) [okItem 1] initPS 0
  exact h.2.2.2 rfl (h.2.1 rfl)

end BtrfsSend
